import Mathlib

/-!
Verification of the snapshot/restore core of the `indexeddb-utils` browser
extension against its specification.

The JavaScript sources are shallowly embedded:

* a settled-or-pending promise becomes the inductive `JsAsync`;
* an IndexedDB cursor walk becomes a list of `CursorEvent`s delivered to the
  handlers the source registers (`idbCursorCollect` and `idbCursorEach`
  register only `onsuccess`, so an `error` event is simply not handled);
* a JS object used as a string-keyed map becomes an association list with
  insert-or-overwrite-in-place semantics (`assocPut`), matching JS property
  assignment order (`Object.values` returns values in insertion order);
* an object store's contents become an association list from (inline) key to
  value, with `IDBObjectStore.put` being the same insert-or-overwrite;
* `Array.prototype.sort()` called with no comparator on an array of numbers
  compares the numbers' decimal string representations in lexicographic
  (UTF-16 code unit) order; this is modelled by `jsStrLt` on digit lists.
-/

/-- Outcome of a JS promise: fulfilled, rejected, or never settled. -/
inductive JsAsync (α : Type) where
  | resolved (a : α)
  | rejected (e : String)
  | pending
deriving DecidableEq

/-- Model of `promise.then(f)` for a synchronous callback `f`. -/
def jsThen {α β : Type} (p : JsAsync α) (f : α → β) : JsAsync β :=
  match p with
  | JsAsync.resolved a => JsAsync.resolved (f a)
  | JsAsync.rejected e => JsAsync.rejected e
  | JsAsync.pending => JsAsync.pending

/-- Whether the promise outcome is a rejection. -/
def JsAsync.isRejected {α : Type} : JsAsync α → Bool
  | JsAsync.rejected _ => true
  | _ => false

/-- Whether the promise outcome is settled (fulfilled or rejected) at all. -/
def JsAsync.settled {α : Type} : JsAsync α → Bool
  | JsAsync.pending => false
  | _ => true

/-- Model of `Promise.all(arr)` for an array whose elements are NOT promises
(not thenables).  Per the JS specification such elements are treated as
already-fulfilled values, so `Promise.all` fulfills immediately with the
array itself.  `restoreSnapshot` in `src/unnamed/part_001` passes an array of
`IDBRequest` objects, which are not thenables, so this is the case it hits. -/
def jsPromiseAllValues {α : Type} (l : List α) : JsAsync (List α) :=
  JsAsync.resolved l

/-- Event delivered to the handlers registered on `cursorTarget.openCursor(range)`:
a success event carrying the next cursor position (`some record`), a success
event carrying a null cursor (walk exhausted), or an error event. -/
inductive CursorEvent (V : Type) where
  | success (cursor : Option V)
  | error
deriving DecidableEq

/-- Event stream of a cursor walk that visits `records` in order and then
reports exhaustion (the null-cursor success event). -/
def normalWalkEvents {V : Type} (records : List V) : List (CursorEvent V) :=
  records.map (fun v => CursorEvent.success (some v)) ++ [CursorEvent.success none]

/-- Event stream of a cursor walk that visits `records` in order and then
fails: the request fires an error event instead of a further success event. -/
def erroredWalkEvents {V : Type} (records : List V) : List (CursorEvent V) :=
  records.map (fun v => CursorEvent.success (some v)) ++ [CursorEvent.error]

/-- Event-processing loop of `idbCursorCollect` (src/Contributing.md lines
118-133).  The promise executor registers only an `onsuccess` handler, which
pushes `valFn cursor.value` and continues, and resolves with the collection at
the null cursor.  No `onerror` handler is registered and the `reject` function
is never called, so an error event leaves the promise untouched and it can
never settle afterwards. -/
def collectLoop {V β : Type} (valFn : V → β) :
    List (CursorEvent V) → List β → JsAsync (List β)
  | [], _ => JsAsync.pending
  | CursorEvent.success (some v) :: rest, acc =>
      collectLoop valFn rest (acc ++ [valFn v])
  | CursorEvent.success none :: _, acc => JsAsync.resolved acc
  | CursorEvent.error :: rest, acc => collectLoop valFn rest acc

/-- Embedding of `idbCursorCollect(cursorTarget, range, valFn)`: the cursor
target and range are abstracted into the event stream they produce.  The JS
defaulting of `valFn` to the identity function is elided (it only matters for
dynamic typing); the claims under verification always supply a transform. -/
def idbCursorCollect {V β : Type} (events : List (CursorEvent V)) (valFn : V → β) :
    JsAsync (List β) :=
  collectLoop valFn events []

/-- JS value as needed for the `idbCursorEach` accumulator: `undefined`, `NaN`
or a number. -/
inductive JsVal where
  | undef
  | nan
  | num (n : Nat)
deriving DecidableEq

/-- JS `x + 1` on such a value: `undefined + 1` is `NaN`, `NaN + 1` is `NaN`. -/
def jsAdd1 : JsVal → JsVal
  | JsVal.undef => JsVal.nan
  | JsVal.nan => JsVal.nan
  | JsVal.num n => JsVal.num (n + 1)

/-- Event-processing loop of `idbCursorEach` (src/Contributing.md lines
153-169): on each non-null cursor it sets `accumulator = opFn(cursor, accumulator)`
and continues, and resolves with the accumulator at the null cursor.  As in
`collectLoop`, no error handler is registered. -/
def eachLoop {R : Type} (opFn : R → JsVal → JsVal) :
    List (CursorEvent R) → JsVal → JsAsync JsVal
  | [], _ => JsAsync.pending
  | CursorEvent.success (some r) :: rest, acc => eachLoop opFn rest (opFn r acc)
  | CursorEvent.success none :: _, acc => JsAsync.resolved acc
  | CursorEvent.error :: rest, acc => eachLoop opFn rest acc

/-- Embedding of `idbCursorEach(cursorTarget, range, acc, opFn)`.  The source
first runs `opFn = !!opFn ? opFn : (record, acc) => acc + 1`, then
`acc = !!opFn ? acc : 0`; at that second line `opFn` is always a function and
a function object is always truthy, so the `: 0` branch is dead and the seed
is kept exactly as passed (an omitted argument is `undefined`, i.e.
`JsVal.undef`). -/
def idbCursorEach {R : Type} (events : List (CursorEvent R)) (acc0 : JsVal)
    (opFn? : Option (R → JsVal → JsVal)) : JsAsync JsVal :=
  let opFn : R → JsVal → JsVal :=
    match opFn? with
    | some f => f
    | none => fun _ acc => jsAdd1 acc
  let acc : JsVal := if true then acc0 else JsVal.num 0
  eachLoop opFn events acc

/-- Decimal digits of a positive number, most significant first, computed with
structural fuel so that it reduces in the kernel. -/
def decDigitsAux : Nat → Nat → List Nat
  | 0, _ => []
  | _ + 1, 0 => []
  | fuel + 1, n + 1 => decDigitsAux fuel ((n + 1) / 10) ++ [(n + 1) % 10]

/-- Decimal digit string of a natural number, most significant digit first
(`"0"` for zero), as the list of its digits. -/
def decDigits (n : Nat) : List Nat :=
  if n = 0 then [0] else decDigitsAux n n

/-- Lexicographic comparison of digit lists.  Decimal digits map to the UTF-16
code units of their characters monotonically, so this is exactly how JS
compares the decimal string representations of two numbers. -/
def lexLt : List Nat → List Nat → Bool
  | [], [] => false
  | [], _ :: _ => true
  | _ :: _, [] => false
  | a :: as, b :: bs => if a < b then true else if b < a then false else lexLt as bs

/-- Comparison used by the default comparator of `Array.prototype.sort()` on an
array of numbers: the numbers are converted to strings and the strings are
compared in UTF-16 order.  So `10` sorts before `2`. -/
def jsStrLt (a b : Nat) : Bool :=
  lexLt (decDigits a) (decDigits b)

/-- Insertion step of a sort by `jsStrLt` (the elements we sort are distinct
version numbers, so ties cannot occur and any comparison sort yields the same
result as JS `sort()`). -/
def insertStr (a : Nat) : List Nat → List Nat
  | [] => [a]
  | b :: rest => if jsStrLt b a then b :: insertStr a rest else a :: b :: rest

/-- Model of `Object.keys(upgradeFns).map(Number).sort()`: the key set sorted
with the default (string-comparing) comparator. -/
def jsSortNums (l : List Nat) : List Nat :=
  l.foldr insertStr []

/-- Embedding of `versionUpgrades(event, upgradeFns)` (src/Contributing.md
lines 204-221, identical copy in src/popup/indexedDbUtilities.js).
`upgradeKeys` is the key set of the `upgradeFns` mapping; `current` and
`requested` are `event.oldVersion` and `event.newVersion`.  The result is the
sequence of version numbers whose upgrade functions are invoked, in invocation
order, paired with the thrown error message if any.  Both `throw` statements
precede the upgrade loop, so on an error no upgrade function has been invoked
and the first component is `[]`. -/
def versionUpgrades (upgradeKeys : List Nat) (current requested : Nat) :
    List Nat × Option String :=
  let versions := jsSortNums upgradeKeys
  if current ∈ versions then
    if requested ∈ versions then
      (versions.drop (versions.indexOf current + 1), none)
    else
      ([], some ("upgradeFns missing requested version: " ++ Nat.repr requested))
  else
    ([], some ("upgradeFns missing current version: " ++ Nat.repr current))

/-- Insertion step of a numerically ascending sort. -/
def insertNat (a : Nat) : List Nat → List Nat
  | [] => [a]
  | b :: rest => if b ≤ a then b :: insertNat a rest else a :: b :: rest

/-- Numerically ascending sort of a list of naturals. -/
def sortNatAsc (l : List Nat) : List Nat :=
  l.foldr insertNat []

/-- Modelled from the spec's words, for comparison with `versionUpgrades`: the
upgrade sequence the specification prescribes, namely "every upgrade function
whose version number is greater than current and at most requested", "strictly
in ascending numeric order". -/
def specUpgradeSequence (upgradeKeys : List Nat) (current requested : Nat) :
    List Nat :=
  (sortNatAsc upgradeKeys).filter
    (fun v => decide (current < v) && decide (v ≤ requested))

/-- Embedding of `getOriginOrOpaque()` (src/Contributing.md lines 240-246):
`window.origin` reports the string `"null"` for an opaque origin, in which
case the tagged string embedding `window.location.href` is substituted. -/
def getOriginOrOpaque (windowOrigin windowLocationHref : String) : String :=
  if windowOrigin = "null" then "[opaque](" ++ windowLocationHref ++ ")"
  else windowOrigin

/-- Insert-or-overwrite on an association list: the semantics both of JS
property assignment `obj[k] = v` (existing key keeps its position, new key is
appended, `Object.values` returns values in that order) and of
`IDBObjectStore.put` on a store with inline keys (observed through key
lookups). -/
def assocPut {κ β : Type} [DecidableEq κ] :
    List (κ × β) → κ → β → List (κ × β)
  | [], k, v => [(k, v)]
  | (k0, v0) :: rest, k, v =>
      if k0 = k then (k, v) :: rest else (k0, v0) :: assocPut rest k v

/-- Lookup in an association list (JS property read / `IDBObjectStore.get`). -/
def lookupA {κ β : Type} [DecidableEq κ] (m : List (κ × β)) (k : κ) : Option β :=
  (m.find? (fun p => decide (p.1 = k))).map Prod.snd

/-- Snapshot package assembled by the current revision of `takeSnapshot`
(src/unnamed/part_001 lines 174-207): the `data` field of the
`snapshot-data` message, which `snapshotData` persists unchanged via
`store.add(msg.data)`. -/
structure SnapshotData (V : Type) where
  origin : String
  dbName : String
  dbVersion : Nat
  created : Nat
  stores : List String
  storeCount : Nat
  recordCount : Nat
  snapshot : List (String × List V)
deriving DecidableEq

/-- Embedding of `takeSnapshot` (src/unnamed/part_001 lines 174-207).  The
source database is abstracted as the list pairing each name of
`dbcon.objectStoreNames` (in order) with the result of that store's
`getAll()`.  `storeSnapshots` is built by the JS property assignments
`storeSnapshots[storeName] = all`, and `records` is
`Object.values(storeSnapshots).map(snap => snap.length).reduce((a, b) => a + b, 0)`. -/
def takeSnapshot {V : Type} (origin dbName : String) (dbVersion created : Nat)
    (db : List (String × List V)) : SnapshotData V :=
  let storeNames : List String := db.map Prod.fst
  let storeSnapshots : List (String × List V) :=
    db.foldl (fun m p => assocPut m p.1 p.2) []
  let records : Nat :=
    ((storeSnapshots.map Prod.snd).map List.length).foldl (fun a b => a + b) 0
  { origin := origin, dbName := dbName, dbVersion := dbVersion,
    created := created, stores := storeNames,
    storeCount := storeNames.length, recordCount := records,
    snapshot := storeSnapshots }

/-- State of the target database during a restore: each object store name is
mapped to that store's contents, an association list from each record's inline
key to the rest of the record. -/
def DbState (V : Type) : Type :=
  String → List (Nat × V)

/-- Ordered sequence of writes issued by the put loops of `restoreSnapshot`
(src/unnamed/part_001 lines 299-305): for each `storeName` of `stores` in
order, one write per entry of `snapshot[storeName]` in order.  If some member
of `stores` has no entry in `snapshot`, the JS `for (entry of snapshot[storeName])`
throws a `TypeError` on `undefined` and the async function's promise rejects;
this is the `Except.error` case (no claim under verification depends on the
puts issued before such a throw, so the error case carries no write list). -/
def restoreWrites {V : Type} (snapshot : List (String × List (Nat × V))) :
    List String → Except String (List (String × (Nat × V)))
  | [] => Except.ok []
  | sn :: rest =>
    match lookupA snapshot sn with
    | none => Except.error ("TypeError: snapshot[" ++ sn ++ "] is not iterable")
    | some entries =>
      match restoreWrites snapshot rest with
      | Except.error e => Except.error e
      | Except.ok ws => Except.ok (entries.map (fun e => (sn, e)) ++ ws)

/-- Decidable equality for `Except`, needed to evaluate claims on concrete
request lists. -/
instance {ε α : Type} [DecidableEq ε] [DecidableEq α] :
    DecidableEq (Except ε α) := fun a b =>
  match a, b with
  | Except.ok x, Except.ok y =>
      if h : x = y then isTrue (by rw [h]) else isFalse (by simp [h])
  | Except.error x, Except.error y =>
      if h : x = y then isTrue (by rw [h]) else isFalse (by simp [h])
  | Except.ok _, Except.error _ => isFalse (by simp)
  | Except.error _, Except.ok _ => isFalse (by simp)

/-- An `IDBRequest` returned by `store.put(entry)`: the store it was issued
against, the entry written, and the request's eventual outcome (the new key on
success, an error otherwise).  `restoreSnapshot` pushes these objects
themselves into `putResults` without wrapping them into promises. -/
structure PutRequest (V : Type) where
  storeName : String
  entry : Nat × V
  result : Except String Nat
deriving DecidableEq

/-- Embedding of the promise behaviour of `restoreSnapshot`
(src/unnamed/part_001 lines 289-318).  `putOutcome` gives each issued write's
eventual outcome.  The source runs
`return Promise.all(putResults).then((putIds) => { ...; return putIds })`
where `putResults` is an array of `IDBRequest` objects, which are not
thenables, so `Promise.all` fulfills immediately with that very array: the
write outcomes are never consulted. -/
def restoreSnapshot {V : Type} (stores : List String)
    (snapshot : List (String × List (Nat × V)))
    (putOutcome : String → Nat × V → Except String Nat) :
    JsAsync (List (PutRequest V)) :=
  match restoreWrites snapshot stores with
  | Except.error e => JsAsync.rejected e
  | Except.ok ws =>
    let putResults : List (PutRequest V) :=
      ws.map (fun w => PutRequest.mk w.1 w.2 (putOutcome w.1 w.2))
    jsThen (jsPromiseAllValues putResults) (fun putIds => putIds)

/-- Effect of one issued write on the database state: `put` on the named store,
all other stores untouched. -/
def applyStorePut {V : Type} (db : DbState V) (sn : String) (e : Nat × V) :
    DbState V :=
  fun s => if s = sn then assocPut (db sn) e.1 e.2 else db s

/-- Effect of a sequence of issued writes, applied in program order (within the
single readwrite transaction of `restoreSnapshot` the engine queues and
executes the writes in exactly that order). -/
def applyWrites {V : Type} (db : DbState V)
    (ws : List (String × (Nat × V))) : DbState V :=
  ws.foldl (fun d w => applyStorePut d w.1 w.2) db

/-- Database state after the transaction of `restoreSnapshot` commits: the
issued writes applied in order to the pre-restore state.  On the thrown
`TypeError` the promise rejects instead. -/
def restoreEffect {V : Type} (db : DbState V) (stores : List String)
    (snapshot : List (String × List (Nat × V))) : Except String (DbState V) :=
  (restoreWrites snapshot stores).map (applyWrites db)

/-- First-some choice on options (used to state where a lookup after a write
sequence comes from). -/
def optOr {β : Type} (a b : Option β) : Option β :=
  match a with
  | some v => some v
  | none => b

/-- Value written last to store `s` at key `k` by the write sequence, if any. -/
def lastWrite {V : Type} : List (String × (Nat × V)) → String → Nat → Option V
  | [], _, _ => none
  | w :: rest, s, k =>
    optOr (lastWrite rest s k)
      (if w.1 = s ∧ w.2.1 = k then some w.2.2 else none)

/-- Record persisted in the `snapshots` object store of the extension's own
database (primary key `id` is autoincremented by `store.add`). -/
structure StoredSnapshot (V : Type) where
  id : Nat
  origin : String
  dbName : String
  dbVersion : Nat
  created : Nat
  stores : List String
  storeCount : Nat
  recordCount : Nat
  snapshot : List (String × List V)
deriving DecidableEq

/-- Metadata-only projection of a stored snapshot: every field except the
`snapshot` payload, exactly what the rest-destructuring
`const {snapshot: _, ...metadata} = v` keeps. -/
structure SnapshotMeta where
  id : Nat
  origin : String
  dbName : String
  dbVersion : Nat
  created : Nat
  stores : List String
  storeCount : Nat
  recordCount : Nat
deriving DecidableEq

/-- The transform applied to each walked record by `getSnapshotMetadata`. -/
def stripSnapshot {V : Type} (r : StoredSnapshot V) : SnapshotMeta :=
  { id := r.id, origin := r.origin, dbName := r.dbName,
    dbVersion := r.dbVersion, created := r.created, stores := r.stores,
    storeCount := r.storeCount, recordCount := r.recordCount }

/-- Insertion step of `snapshotMetadata.sort(sortDateDesc)` with
`sortDateDesc = (a, b) => b.created - a.created`: a stable sort into
descending `created` order. -/
def insertByDesc (a : SnapshotMeta) : List SnapshotMeta → List SnapshotMeta
  | [] => [a]
  | b :: rest =>
      if a.created < b.created then b :: insertByDesc a rest else a :: b :: rest

/-- Stable sort into descending `created` order (ES2019 `Array.prototype.sort`
is stable; with the numeric comparator the result is exactly the stable
descending reordering, whatever algorithm the engine uses). -/
def sortByCreatedDesc (l : List SnapshotMeta) : List SnapshotMeta :=
  l.foldr insertByDesc []

/-- Embedding of `getSnapshotMetadata(origin)` (src/unnamed/part_005 lines
169-188).  The `snapshots` store is abstracted as its record list `db` in
primary-key (ascending `id`) order; the cursor walk over the `by_origin` index
with `IDBKeyRange.only(origin)` visits exactly the records whose `origin`
field equals `origin`, in that stored order (equal index keys are ordered by
primary key).  Each visited record is projected by the rest-destructuring
transform, and the collected list is then sorted by `created` descending. -/
def getSnapshotMetadata {V : Type} (origin : String)
    (db : List (StoredSnapshot V)) : List SnapshotMeta :=
  sortByCreatedDesc
    ((db.filter (fun r => decide (r.origin = origin))).map stripSnapshot)

/-- Sample contents of the `snapshots` store used to witness the metadata
listing: two snapshots of origin `"o"` (created at 5 and 9) and one of origin
`"x"`, in primary-key order. -/
def sampleStore : List (StoredSnapshot Nat) :=
  [{ id := 1, origin := "o", dbName := "d", dbVersion := 1, created := 5,
     stores := ["s"], storeCount := 1, recordCount := 0, snapshot := [("s", [])] },
   { id := 2, origin := "x", dbName := "d", dbVersion := 1, created := 7,
     stores := ["s"], storeCount := 1, recordCount := 0, snapshot := [("s", [])] },
   { id := 3, origin := "o", dbName := "d", dbVersion := 2, created := 9,
     stores := ["s"], storeCount := 1, recordCount := 1, snapshot := [("s", [4])] }]

/-! Helper lemmas. -/

/-- Folding addition from an arbitrary start equals start plus the sum. -/
theorem foldl_add_eq_sum (l : List Nat) : ∀ n : Nat,
    l.foldl (fun a b => a + b) n = n + l.sum := by
  induction l with
  | nil => intro n; simp
  | cons a rest ih =>
      intro n
      rw [List.foldl_cons, ih, List.sum_cons]
      omega

/-- Processing the success events of the visited records appends their images
to the accumulator. -/
theorem collectLoop_append {V β : Type} (valFn : V → β) (records : List V)
    (evs : List (CursorEvent V)) (acc : List β) :
    collectLoop valFn (records.map (fun v => CursorEvent.success (some v)) ++ evs) acc
      = collectLoop valFn evs (acc ++ records.map valFn) := by
  induction records generalizing acc with
  | nil => simp
  | cons r rest ih =>
      simp only [List.map_cons, List.cons_append, collectLoop, List.append_eq]
      rw [ih]
      simp

/-- Membership in an `insertStr` insertion. -/
theorem mem_insertStr {x a : Nat} : ∀ {l : List Nat},
    x ∈ insertStr a l ↔ x = a ∨ x ∈ l
  | [] => by simp [insertStr]
  | b :: rest => by
      rw [insertStr]
      by_cases h : jsStrLt b a
      · rw [if_pos h]
        simp only [List.mem_cons, mem_insertStr (l := rest)]
        tauto
      · rw [if_neg h]
        simp [List.mem_cons]

/-- Sorting with the JS default comparator preserves membership. -/
theorem mem_jsSortNums {x : Nat} : ∀ {l : List Nat},
    x ∈ jsSortNums l ↔ x ∈ l
  | [] => by simp [jsSortNums]
  | a :: rest => by
      show x ∈ insertStr a (jsSortNums rest) ↔ _
      rw [mem_insertStr, mem_jsSortNums (l := rest)]
      simp

/-- Decimal digit string of a single-digit number. -/
theorem decDigits_of_lt_ten {a : Nat} (ha : a < 10) : decDigits a = [a] := by
  interval_cases a <;> rfl

/-- Lexicographic comparison of singleton digit lists is numeric comparison. -/
theorem lexLt_single (a b : Nat) : lexLt [a] [b] = decide (a < b) := by
  by_cases h : a < b
  · simp [lexLt, h]
  · by_cases h2 : b < a <;> simp [lexLt, h, h2]

/-- On single-digit numbers the JS string comparison agrees with the numeric
one. -/
theorem jsStrLt_of_lt_ten {a b : Nat} (ha : a < 10) (hb : b < 10) :
    jsStrLt a b = decide (a < b) := by
  rw [jsStrLt, decDigits_of_lt_ten ha, decDigits_of_lt_ten hb, lexLt_single]

/-- Inserting a fresh single-digit element into a strictly ascending list of
single-digit elements keeps it strictly ascending. -/
theorem sorted_insertStr {a : Nat} (ha : a < 10) : ∀ {l : List Nat},
    (∀ x ∈ l, x < 10) → a ∉ l → List.Sorted (· < ·) l →
    List.Sorted (· < ·) (insertStr a l)
  | [], _, _, _ => by simp [insertStr]
  | b :: rest, h10, hna, hs => by
      have hb10 : b < 10 := h10 b (by simp)
      rcases List.sorted_cons.mp hs with ⟨hball, hrest⟩
      rw [insertStr]
      by_cases hlt : jsStrLt b a = true
      · rw [if_pos hlt]
        have hba : b < a := by
          rw [jsStrLt_of_lt_ten hb10 ha] at hlt
          exact of_decide_eq_true hlt
        apply List.sorted_cons.mpr
        refine ⟨?_, ?_⟩
        · intro x hx
          rcases mem_insertStr.mp hx with rfl | hx'
          · exact hba
          · exact hball x hx'
        · exact sorted_insertStr ha (fun x hx => h10 x (by simp [hx]))
            (fun hm => hna (by simp [hm])) hrest
      · rw [if_neg hlt]
        have hab : a < b := by
          rw [jsStrLt_of_lt_ten hb10 ha] at hlt
          have hnb : ¬ b < a := by simpa using hlt
          have hne : a ≠ b := fun h => hna (by simp [h])
          omega
        apply List.sorted_cons.mpr
        refine ⟨?_, hs⟩
        intro x hx
        rcases List.mem_cons.mp hx with rfl | hx'
        · exact hab
        · exact lt_trans hab (hball x hx')

/-- The JS default sort of a duplicate-free list of single-digit numbers is
strictly ascending numerically. -/
theorem sorted_jsSortNums : ∀ {l : List Nat},
    (∀ x ∈ l, x < 10) → l.Nodup → List.Sorted (· < ·) (jsSortNums l)
  | [], _, _ => by simp [jsSortNums]
  | a :: rest, h10, hnd => by
      show List.Sorted (· < ·) (insertStr a (jsSortNums rest))
      rcases List.nodup_cons.mp hnd with ⟨hna, hndrest⟩
      exact sorted_insertStr (h10 a (by simp))
        (fun x hx => h10 x (by simp [mem_jsSortNums.mp hx]))
        (fun hm => hna (mem_jsSortNums.mp hm))
        (sorted_jsSortNums (fun x hx => h10 x (by simp [hx])) hndrest)

/-- In a strictly ascending list, dropping everything up to and including a
member leaves exactly the elements greater than it. -/
theorem drop_indexOf_sorted {c : Nat} : ∀ {l : List Nat},
    List.Sorted (· < ·) l → c ∈ l →
    l.drop (l.indexOf c + 1) = l.filter (fun v => decide (c < v))
  | [], _, hc => by cases hc
  | a :: rest, hs, hc => by
      rcases List.sorted_cons.mp hs with ⟨hall, hrest⟩
      by_cases hac : a = c
      · subst hac
        rw [List.indexOf_cons_self]
        have hfr : rest.filter (fun v => decide (a < v)) = rest :=
          List.filter_eq_self.mpr (fun x hx => by simpa using hall x hx)
        simp [hfr]
      · have hcrest : c ∈ rest := by
          rcases List.mem_cons.mp hc with h | h
          · exact absurd h.symm hac
          · exact h
        have hac2 : a < c := hall c hcrest
        rw [List.indexOf_cons_ne _ hac]
        have : ¬ c < a := by omega
        simp only [Nat.succ_eq_add_one, List.drop_succ_cons,
          List.filter_cons, this, decide_eq_true_eq, if_neg]
        exact drop_indexOf_sorted hrest hcrest

/-- Lookup in a non-empty association list. -/
theorem lookupA_cons {κ β : Type} [DecidableEq κ] (k0 : κ) (v0 : β)
    (rest : List (κ × β)) (k : κ) :
    lookupA ((k0, v0) :: rest) k = if k0 = k then some v0 else lookupA rest k := by
  by_cases h : k0 = k <;> simp [lookupA, List.find?, h]

/-- Lookup after an insert-or-overwrite. -/
theorem lookupA_assocPut {κ β : Type} [DecidableEq κ] :
    ∀ (m : List (κ × β)) (k' : κ) (v : β) (k : κ),
    lookupA (assocPut m k' v) k = if k = k' then some v else lookupA m k
  | [], k', v, k => by
      by_cases h : k = k'
      · subst h
        simp [assocPut, lookupA_cons]
      · have h2 : k' ≠ k := fun hx => h hx.symm
        simp [assocPut, lookupA_cons, lookupA, List.find?, h, h2]
  | (k0, v0) :: rest, k', v, k => by
      by_cases h0 : k0 = k'
      · subst h0
        rw [assocPut, if_pos rfl, lookupA_cons, lookupA_cons]
        by_cases h : k0 = k
        · rw [if_pos h, if_pos h.symm]
        · have h2 : ¬ k = k0 := fun hx => h hx.symm
          rw [if_neg h, if_neg h2, if_neg h]
      · rw [assocPut, if_neg h0, lookupA_cons, lookupA_cons]
        by_cases hk : k0 = k
        · have h2 : ¬ k = k' := fun hx => h0 (hk.trans hx)
          rw [if_pos hk, if_pos hk, if_neg h2]
        · rw [if_neg hk, if_neg hk, lookupA_assocPut rest k' v k]

/-- First-some choice is associative. -/
theorem optOr_assoc {β : Type} (a b c : Option β) :
    optOr (optOr a b) c = optOr a (optOr b c) := by
  cases a <;> rfl

/-- First-some choice absorbs a repeated first argument. -/
theorem optOr_self {β : Type} (a b : Option β) :
    optOr a (optOr a b) = optOr a b := by
  cases a <;> rfl

/-- Lookup after a single store put. -/
theorem lookupA_applyStorePut {V : Type} (db : DbState V) (sn : String)
    (e : Nat × V) (s : String) (k : Nat) :
    lookupA (applyStorePut db sn e s) k
      = optOr (if sn = s ∧ e.1 = k then some e.2 else none) (lookupA (db s) k) := by
  unfold applyStorePut
  by_cases hss : s = sn
  · subst hss
    rw [if_pos rfl, lookupA_assocPut]
    by_cases hk : k = e.1
    · simp [hk, optOr]
    · have h2 : ¬ e.1 = k := fun hx => hk hx.symm
      simp [optOr, hk, h2]
  · rw [if_neg hss]
    have h2 : ¬ (sn = s ∧ e.1 = k) := fun hx => hss hx.1.symm
    simp [h2, optOr]

/-- Lookup after a write sequence: the last matching write wins, otherwise the
pre-existing record is still there. -/
theorem lookupA_applyWrites {V : Type} :
    ∀ (ws : List (String × (Nat × V))) (db : DbState V) (s : String) (k : Nat),
    lookupA (applyWrites db ws s) k = optOr (lastWrite ws s k) (lookupA (db s) k)
  | [], db, s, k => rfl
  | w :: rest, db, s, k => by
      rw [show applyWrites db (w :: rest)
          = applyWrites (applyStorePut db w.1 w.2) rest from rfl,
        lookupA_applyWrites rest, lookupA_applyStorePut,
        show lastWrite (w :: rest) s k
          = optOr (lastWrite rest s k)
              (if w.1 = s ∧ w.2.1 = k then some w.2.2 else none) from rfl,
        optOr_assoc]

/-- A write sequence touching neither store `s` nor key `k` has no last write
there. -/
theorem lastWrite_eq_none {V : Type} {s : String} {k : Nat} :
    ∀ {ws : List (String × (Nat × V))},
    (∀ w ∈ ws, ¬ (w.1 = s ∧ w.2.1 = k)) → lastWrite ws s k = none
  | [], _ => rfl
  | w :: rest, h => by
      rw [lastWrite, lastWrite_eq_none (fun x hx => h x (List.mem_cons_of_mem _ hx))]
      simp [optOr, h w (List.mem_cons_self _ _)]

/-- Keys present after an insert-or-overwrite. -/
theorem mem_keys_assocPut {κ β : Type} [DecidableEq κ] {x k : κ} {v : β} :
    ∀ {m : List (κ × β)},
    x ∈ (assocPut m k v).map Prod.fst → x = k ∨ x ∈ m.map Prod.fst
  | [], h => by simpa [assocPut] using h
  | (k0, v0) :: rest, h => by
      rw [assocPut] at h
      by_cases h0 : k0 = k
      · rw [if_pos h0] at h
        rcases List.mem_cons.mp h with h1 | h1
        · exact Or.inl h1
        · exact Or.inr (by simp [List.mem_cons]; right; exact (by simpa using h1))
      · rw [if_neg h0] at h
        rcases List.mem_cons.mp h with h1 | h1
        · exact Or.inr (by simp [h1])
        · rcases mem_keys_assocPut h1 with h2 | h2
          · exact Or.inl h2
          · exact Or.inr (by simp [List.mem_cons]; right; exact (by simpa using h2))

/-- Insert-or-overwrite keeps the key list duplicate-free. -/
theorem nodup_keys_assocPut {κ β : Type} [DecidableEq κ] {k : κ} {v : β} :
    ∀ {m : List (κ × β)},
    (m.map Prod.fst).Nodup → ((assocPut m k v).map Prod.fst).Nodup
  | [], _ => by simp [assocPut]
  | (k0, v0) :: rest, h => by
      rw [List.map_cons, List.nodup_cons] at h
      rw [assocPut]
      by_cases h0 : k0 = k
      · rw [if_pos h0]
        rw [List.map_cons, List.nodup_cons]
        exact ⟨fun hm => h.1 (h0 ▸ hm), h.2⟩
      · rw [if_neg h0]
        rw [List.map_cons, List.nodup_cons]
        refine ⟨fun hm => ?_, nodup_keys_assocPut h.2⟩
        rcases mem_keys_assocPut hm with h1 | h1
        · exact h0 h1
        · exact h.1 h1

/-- Applying a write sequence keeps every store's key list duplicate-free. -/
theorem nodup_keys_applyWrites {V : Type} :
    ∀ (ws : List (String × (Nat × V))) (db : DbState V),
    (∀ s, ((db s).map Prod.fst).Nodup) →
    ∀ s, ((applyWrites db ws s).map Prod.fst).Nodup
  | [], db, h, s => h s
  | w :: rest, db, h, s => by
      rw [show applyWrites db (w :: rest)
          = applyWrites (applyStorePut db w.1 w.2) rest from rfl]
      refine nodup_keys_applyWrites rest _ (fun s2 => ?_) s
      unfold applyStorePut
      by_cases hs : s2 = w.1
      · rw [if_pos hs]
        exact nodup_keys_assocPut (h w.1)
      · rw [if_neg hs]
        exact h s2

/-- Membership in an `insertByDesc` insertion. -/
theorem mem_insertByDesc {x a : SnapshotMeta} : ∀ {l : List SnapshotMeta},
    x ∈ insertByDesc a l ↔ x = a ∨ x ∈ l
  | [] => by simp [insertByDesc]
  | b :: rest => by
      rw [insertByDesc]
      by_cases h : a.created < b.created
      · rw [if_pos h]
        simp only [List.mem_cons, mem_insertByDesc (l := rest)]
        tauto
      · rw [if_neg h]
        simp [List.mem_cons]

/-- Inserting into the descending sort yields a permutation of consing. -/
theorem perm_insertByDesc (a : SnapshotMeta) : ∀ (l : List SnapshotMeta),
    List.Perm (insertByDesc a l) (a :: l)
  | [] => List.Perm.refl _
  | b :: rest => by
      rw [insertByDesc]
      by_cases h : a.created < b.created
      · rw [if_pos h]
        exact List.Perm.trans ((perm_insertByDesc a rest).cons b)
          (List.Perm.swap a b rest)
      · rw [if_neg h]

/-- The descending sort permutes its input. -/
theorem perm_sortByCreatedDesc : ∀ (l : List SnapshotMeta),
    List.Perm (sortByCreatedDesc l) l
  | [] => List.Perm.refl _
  | a :: rest => by
      show List.Perm (insertByDesc a (sortByCreatedDesc rest)) _
      exact List.Perm.trans (perm_insertByDesc a _)
        ((perm_sortByCreatedDesc rest).cons a)

/-- Inserting into a descending-sorted list keeps it descending-sorted. -/
theorem sorted_insertByDesc (a : SnapshotMeta) : ∀ {l : List SnapshotMeta},
    List.Sorted (fun x y => y.created ≤ x.created) l →
    List.Sorted (fun x y => y.created ≤ x.created) (insertByDesc a l)
  | [], _ => by simp [insertByDesc]
  | b :: rest, hs => by
      rcases List.sorted_cons.mp hs with ⟨hball, hrest⟩
      rw [insertByDesc]
      by_cases h : a.created < b.created
      · rw [if_pos h]
        apply List.sorted_cons.mpr
        refine ⟨fun x hx => ?_, sorted_insertByDesc a hrest⟩
        rcases mem_insertByDesc.mp hx with rfl | hx'
        · exact Nat.le_of_lt h
        · exact hball x hx'
      · rw [if_neg h]
        apply List.sorted_cons.mpr
        refine ⟨fun x hx => ?_, hs⟩
        rcases List.mem_cons.mp hx with rfl | hx'
        · omega
        · exact Nat.le_trans (hball x hx') (by omega)

/-- The descending sort is descending-sorted. -/
theorem sorted_sortByCreatedDesc : ∀ (l : List SnapshotMeta),
    List.Sorted (fun x y => y.created ≤ x.created) (sortByCreatedDesc l)
  | [] => by simp [sortByCreatedDesc]
  | a :: rest => sorted_insertByDesc a (sorted_sortByCreatedDesc rest)

/-! Claims. -/

/-- C1: the claim says restore waits for every individual record write to
resolve, fails the whole restore with `RestoreFailed` carrying the underlying
error if any single write fails, and otherwise resolves with the count of
written records.  The code does none of this: `Promise.all` is applied to the
array of `IDBRequest` objects themselves, which are not thenables, so on a
package with a single record whose write fails the returned promise still
fulfills — immediately, with the array of request objects (not a count), and
no rejection path (no `RestoreFailed`) exists. -/
theorem restoreSnapshot_resolves_despite_write_failure :
    restoreSnapshot ["s"] [("s", [(1, (0 : Nat))])]
        (fun _ _ => Except.error "write failed")
      = JsAsync.resolved [PutRequest.mk "s" (1, 0) (Except.error "write failed")]
    ∧ (restoreSnapshot ["s"] [("s", [(1, (0 : Nat))])]
        (fun _ _ => Except.error "write failed")).isRejected = false :=
  ⟨rfl, rfl⟩

/-- C2 counterexample: with mapping keys {0, 2, 10}, current 0 and requested 2
(both keys present), the claim prescribes running exactly step 2.  The code
sorts the keys with the default string comparator, obtaining [0, 10, 2], and
runs everything after `current`, so it runs step 10 (greater than requested)
and then step 2 — neither capped at `requested` nor in ascending numeric
order. -/
theorem versionUpgrades_cex :
    (versionUpgrades [0, 2, 10] 0 2).1 = [10, 2]
    ∧ specUpgradeSequence [0, 2, 10] 0 2 = [2]
    ∧ (versionUpgrades [0, 2, 10] 0 2).1 ≠ specUpgradeSequence [0, 2, 10] 0 2 := by
  decide

/-- C2 (amended): for every upgrade mapping whose keys are all single-digit
and duplicate-free and whose key set contains both the current and the
requested version, `versionUpgrades` runs without error exactly the upgrade
functions whose version number is greater than current — including any greater
than requested — strictly in ascending numeric order.  (With keys of
differing digit counts the order is ascending in the keys' decimal string
representations instead, per `Array.prototype.sort()`.)  In particular with
current=0, requested=2, keys {0,1,2} it runs step 1 then step 2 and never
step 0. -/
theorem versionUpgrades_runs_all_above_current (keys : List Nat)
    (current requested : Nat) (h10 : ∀ k ∈ keys, k < 10) (hnd : keys.Nodup)
    (hcur : current ∈ keys) (hreq : requested ∈ keys) :
    (versionUpgrades keys current requested).2 = none
    ∧ List.Sorted (· < ·) (versionUpgrades keys current requested).1
    ∧ ∀ v, v ∈ (versionUpgrades keys current requested).1 ↔
        v ∈ keys ∧ current < v := by
  have hcur2 : current ∈ jsSortNums keys := mem_jsSortNums.mpr hcur
  have hreq2 : requested ∈ jsSortNums keys := mem_jsSortNums.mpr hreq
  have hs := sorted_jsSortNums h10 hnd
  have hdrop := drop_indexOf_sorted hs hcur2
  have hval : versionUpgrades keys current requested
      = ((jsSortNums keys).drop ((jsSortNums keys).indexOf current + 1), none) := by
    unfold versionUpgrades
    simp [hcur2, hreq2]
  rw [hval, hdrop]
  refine ⟨rfl, hs.filter _, fun v => ?_⟩
  rw [List.mem_filter, mem_jsSortNums]
  simp

/-- C2 witness: the amended statement at the concrete instance from the claim,
current=0, requested=2, keys {0,1,2}, where step 1 runs, then step 2, and
step 0 never runs. -/
theorem versionUpgrades_runs_all_above_current_witness :
    (∀ k ∈ [0, 1, 2], k < 10) ∧ List.Nodup [0, 1, 2]
    ∧ (0 : Nat) ∈ [0, 1, 2] ∧ (2 : Nat) ∈ [0, 1, 2]
    ∧ (versionUpgrades [0, 1, 2] 0 2).1 = [1, 2]
    ∧ ((versionUpgrades [0, 1, 2] 0 2).2 = none
      ∧ List.Sorted (· < ·) (versionUpgrades [0, 1, 2] 0 2).1
      ∧ ∀ v, v ∈ (versionUpgrades [0, 1, 2] 0 2).1 ↔ v ∈ [0, 1, 2] ∧ 0 < v) :=
  ⟨by decide, by decide, by decide, by decide, by decide,
    versionUpgrades_runs_all_above_current [0, 1, 2] 0 2 (by decide) (by decide)
      (by decide) (by decide)⟩

/-- C3: every snapshot package produced by capture has a `recordCount` equal
to the sum of the lengths of the per-collection record sequences stored in its
`snapshot` payload — for every source database contents whatsoever. -/
theorem takeSnapshot_recordCount_eq_sum {V : Type} (origin dbName : String)
    (dbVersion created : Nat) (db : List (String × List V)) :
    (takeSnapshot origin dbName dbVersion created db).recordCount
      = ((takeSnapshot origin dbName dbVersion created db).snapshot.map
          (fun p => p.2.length)).sum := by
  simp only [takeSnapshot]
  rw [foldl_add_eq_sum]
  simp only [Nat.zero_add, List.map_map]
  rfl

/-- C4 counterexample: the claim says that when the underlying walk errors the
operation's result settles as a failure.  On a walk that errors immediately,
the promise returned by `idbCursorCollect` does not settle at all — the
executor registers no `onerror` handler and never calls `reject` — so it is
not a settled failure (and not a settled anything). -/
theorem idbCursorCollect_error_unsettled_cex :
    idbCursorCollect ([CursorEvent.error] : List (CursorEvent Nat)) (fun v => v)
      = JsAsync.pending
    ∧ (idbCursorCollect ([CursorEvent.error] : List (CursorEvent Nat))
        (fun v => v)).settled = false :=
  ⟨rfl, rfl⟩

/-- C4 (amended): `idbCursorCollect` resolves with the full ordered sequence
of `transform(record)` for every in-range record when the walk completes; if
the underlying walk errors, the returned promise never settles (it neither
resolves nor rejects), so in particular it never delivers partial results. -/
theorem idbCursorCollect_full_or_never_settles {V β : Type} (valFn : V → β)
    (records : List V) :
    idbCursorCollect (normalWalkEvents records) valFn
      = JsAsync.resolved (records.map valFn)
    ∧ idbCursorCollect (erroredWalkEvents records) valFn = JsAsync.pending := by
  constructor
  · rw [idbCursorCollect, normalWalkEvents, collectLoop_append]
    rfl
  · rw [idbCursorCollect, erroredWalkEvents, collectLoop_append]
    rfl

/-- C5: restore only ever issues `put` requests for the entries recorded in
the snapshot package; for any store `s` and key `k` not among the issued
writes, the record (or absence of a record) at `(s, k)` after the restore
transaction commits is exactly what it was before — restore is a
merge/overwrite, never a delete. -/
theorem restoreSnapshot_preserves_unwritten_records {V : Type} (db : DbState V)
    (stores : List String) (snapshot : List (String × List (Nat × V)))
    (ws : List (String × (Nat × V))) (s : String) (k : Nat)
    (hws : restoreWrites snapshot stores = Except.ok ws)
    (hk : ∀ w ∈ ws, ¬ (w.1 = s ∧ w.2.1 = k)) :
    restoreEffect db stores snapshot = Except.ok (applyWrites db ws)
    ∧ lookupA (applyWrites db ws s) k = lookupA (db s) k := by
  constructor
  · rw [restoreEffect, hws]
    rfl
  · rw [lookupA_applyWrites, lastWrite_eq_none hk]
    rfl

/-- C5 witness: a database holding a record at key 7 of store `"a"`, restored
from a snapshot writing only key 1 of store `"a"`; the record at key 7 is
untouched. -/
theorem restoreSnapshot_preserves_unwritten_records_witness :
    restoreWrites [("a", [(1, (11 : Nat))])] ["a"]
      = Except.ok [("a", ((1 : Nat), (11 : Nat)))]
    ∧ (∀ w ∈ [("a", ((1 : Nat), (11 : Nat)))], ¬ (w.1 = "a" ∧ w.2.1 = 7))
    ∧ (restoreEffect (fun s => if s = "a" then [(7, (100 : Nat))] else [])
          ["a"] [("a", [(1, 11)])]
        = Except.ok (applyWrites
            (fun s => if s = "a" then [(7, (100 : Nat))] else [])
            [("a", (1, 11))])
      ∧ lookupA (applyWrites (fun s => if s = "a" then [(7, (100 : Nat))] else [])
          [("a", (1, 11))] "a") 7
        = lookupA ((fun s => if s = "a" then [(7, (100 : Nat))] else []) "a") 7) :=
  ⟨by decide, by decide,
    restoreSnapshot_preserves_unwritten_records
      (fun s => if s = "a" then [(7, (100 : Nat))] else []) ["a"]
      [("a", [(1, 11)])] [("a", (1, 11))] "a" 7 (by decide) (by decide)⟩

/-- C6: with explicit (inline) keys, restoring the same snapshot package twice
in a row yields the same record set as restoring it once: the same write
sequence is issued both times, and every lookup after the second application
equals the lookup after the first (records are overwritten at their keys);
moreover no duplicate keys are ever introduced into any store. -/
theorem restoreSnapshot_idempotent {V : Type} (db : DbState V)
    (stores : List String) (snapshot : List (String × List (Nat × V)))
    (ws : List (String × (Nat × V)))
    (hws : restoreWrites snapshot stores = Except.ok ws) :
    restoreEffect db stores snapshot = Except.ok (applyWrites db ws)
    ∧ restoreEffect (applyWrites db ws) stores snapshot
        = Except.ok (applyWrites (applyWrites db ws) ws)
    ∧ (∀ s k, lookupA (applyWrites (applyWrites db ws) ws s) k
        = lookupA (applyWrites db ws s) k)
    ∧ ((∀ s, ((db s).map Prod.fst).Nodup) →
        ∀ s, ((applyWrites db ws s).map Prod.fst).Nodup) := by
  refine ⟨?_, ?_, fun s k => ?_, fun h => nodup_keys_applyWrites ws db h⟩
  · rw [restoreEffect, hws]
    rfl
  · rw [restoreEffect, hws]
    rfl
  · rw [lookupA_applyWrites, lookupA_applyWrites, optOr_self]

/-- C6 witness: restoring a two-record snapshot twice over a database holding
an unrelated record leaves exactly the once-restored state. -/
theorem restoreSnapshot_idempotent_witness :
    restoreWrites [("a", [(1, (11 : Nat)), (2, 22)])] ["a"]
      = Except.ok [("a", ((1 : Nat), (11 : Nat))), ("a", (2, 22))]
    ∧ (restoreEffect (fun s => if s = "a" then [(7, (100 : Nat))] else [])
          ["a"] [("a", [(1, 11), (2, 22)])]
        = Except.ok (applyWrites
            (fun s => if s = "a" then [(7, (100 : Nat))] else [])
            [("a", (1, 11)), ("a", (2, 22))])
      ∧ restoreEffect (applyWrites
            (fun s => if s = "a" then [(7, (100 : Nat))] else [])
            [("a", (1, 11)), ("a", (2, 22))]) ["a"] [("a", [(1, 11), (2, 22)])]
        = Except.ok (applyWrites (applyWrites
            (fun s => if s = "a" then [(7, (100 : Nat))] else [])
            [("a", (1, 11)), ("a", (2, 22))]) [("a", (1, 11)), ("a", (2, 22))])
      ∧ (∀ s k, lookupA (applyWrites (applyWrites
            (fun s2 => if s2 = "a" then [(7, (100 : Nat))] else [])
            [("a", (1, 11)), ("a", (2, 22))]) [("a", (1, 11)), ("a", (2, 22))] s) k
          = lookupA (applyWrites
              (fun s2 => if s2 = "a" then [(7, (100 : Nat))] else [])
              [("a", (1, 11)), ("a", (2, 22))] s) k)
      ∧ ((∀ s, (((fun s2 => if s2 = "a" then [(7, (100 : Nat))] else []) s).map
            Prod.fst).Nodup) →
          ∀ s, ((applyWrites
            (fun s2 => if s2 = "a" then [(7, (100 : Nat))] else [])
            [("a", (1, 11)), ("a", (2, 22))] s).map Prod.fst).Nodup)) :=
  ⟨by decide,
    restoreSnapshot_idempotent
      (fun s => if s = "a" then [(7, (100 : Nat))] else []) ["a"]
      [("a", [(1, 11), (2, 22)])] [("a", (1, 11)), ("a", (2, 22))] (by decide)⟩

/-- C7: whenever the requested version is missing from the upgrade mapping's
key set, `versionUpgrades` throws (a `MissingVersionDefinition` condition,
reported as the thrown error message) before its upgrade loop, so the sequence
of invoked upgrade functions is empty. -/
theorem versionUpgrades_missing_requested (keys : List Nat)
    (current requested : Nat) (h : requested ∉ keys) :
    (versionUpgrades keys current requested).1 = []
    ∧ (versionUpgrades keys current requested).2.isSome = true := by
  have hreq : requested ∉ jsSortNums keys := fun hm => h (mem_jsSortNums.mp hm)
  unfold versionUpgrades
  by_cases hc : current ∈ jsSortNums keys
  · simp [hc, hreq]
  · simp [hc]

/-- C7 witness: the claim's concrete instance, requested=5 with mapping keys
{0, 1, 2}: the call fails and no upgrade step runs. -/
theorem versionUpgrades_missing_requested_witness :
    (5 : Nat) ∉ [0, 1, 2]
    ∧ ((versionUpgrades [0, 1, 2] 0 5).1 = []
      ∧ (versionUpgrades [0, 1, 2] 0 5).2.isSome = true) :=
  ⟨by decide, versionUpgrades_missing_requested [0, 1, 2] 0 5 (by decide)⟩

/-- C8: `getSnapshotMetadata origin` returns exactly the metadata projections
(payload field stripped) of the snapshots recorded under `origin` — a
permutation of the stripped walk over the `by_origin` index — sorted by
creation time descending, and every returned element is the stripped
projection of a stored snapshot of that origin. -/
theorem getSnapshotMetadata_spec {V : Type} (origin : String)
    (db : List (StoredSnapshot V)) :
    List.Perm (getSnapshotMetadata origin db)
      ((db.filter (fun r => decide (r.origin = origin))).map stripSnapshot)
    ∧ List.Sorted (fun a b => b.created ≤ a.created)
        (getSnapshotMetadata origin db)
    ∧ ∀ m ∈ getSnapshotMetadata origin db,
        ∃ r ∈ db, r.origin = origin ∧ m = stripSnapshot r := by
  refine ⟨perm_sortByCreatedDesc _, sorted_sortByCreatedDesc _, fun m hm => ?_⟩
  have hm2 : m ∈ (db.filter (fun r => decide (r.origin = origin))).map
      stripSnapshot := (perm_sortByCreatedDesc _).subset hm
  rcases List.mem_map.mp hm2 with ⟨r, hr, hrm⟩
  rcases List.mem_filter.mp hr with ⟨hrdb, hror⟩
  exact ⟨r, hrdb, of_decide_eq_true hror, hrm.symm⟩

/-- C9: origin resolution returns the reported origin verbatim whenever it is
not the opaque marker `"null"`; when it is the marker, it returns the tagged
string embedding the full location, which is never the marker itself. -/
theorem getOriginOrOpaque_spec (origin href : String) :
    (origin ≠ "null" → getOriginOrOpaque origin href = origin)
    ∧ getOriginOrOpaque "null" href = "[opaque](" ++ href ++ ")"
    ∧ "[opaque](" ++ href ++ ")" ≠ "null" := by
  refine ⟨fun h => by simp [getOriginOrOpaque, h], rfl, fun h => ?_⟩
  have hl := congrArg String.length h
  rw [String.length_append, String.length_append] at hl
  have h9 : String.length "[opaque](" = 9 := rfl
  have h1 : String.length ")" = 1 := rfl
  have h4 : String.length "null" = 4 := rfl
  omega

/-- C9 witness: a normal https origin is passed through verbatim, and an
opaque (file) context resolves to the tagged string embedding the full file
location rather than to `"null"`. -/
theorem getOriginOrOpaque_spec_witness :
    ("https://example.com" ≠ "null")
    ∧ getOriginOrOpaque "https://example.com" "https://example.com/index.html"
        = "https://example.com"
    ∧ getOriginOrOpaque "null" "file:///tmp/page.html"
        = "[opaque](file:///tmp/page.html)"
    ∧ "[opaque](file:///tmp/page.html)" ≠ "null" :=
  ⟨by decide,
    (getOriginOrOpaque_spec "https://example.com"
      "https://example.com/index.html").1 (by decide),
    (getOriginOrOpaque_spec "https://example.com" "file:///tmp/page.html").2.1,
    (getOriginOrOpaque_spec "https://example.com" "file:///tmp/page.html").2.2⟩

/-- C10: when the step function is omitted, `idbCursorEach` uses the default
step `(cursor, acc) => acc + 1`; the accumulator seed, however, is never
replaced by a default (the `: 0` branch is dead because the defaulted step is
a function and hence truthy), so a call omitting both the step and the seed
over an empty collection resolves with `undefined`, which is not `0`. -/
theorem idbCursorEach_default_step_keeps_seed (R : Type) :
    (∀ (events : List (CursorEvent R)) (acc : JsVal),
      idbCursorEach events acc none
        = idbCursorEach events acc (some (fun _ acc => jsAdd1 acc)))
    ∧ idbCursorEach (normalWalkEvents ([] : List R)) JsVal.undef none
        = JsAsync.resolved JsVal.undef
    ∧ JsVal.undef ≠ JsVal.num 0 :=
  ⟨fun _ _ => rfl, rfl, by decide⟩

/-- C8 witness: the metadata listing evaluated on `sampleStore` for origin
`"o"`. -/
theorem getSnapshotMetadata_spec_witness :
    List.Perm (getSnapshotMetadata "o" sampleStore)
      ((sampleStore.filter (fun r => decide (r.origin = "o"))).map stripSnapshot)
    ∧ List.Sorted (fun a b => b.created ≤ a.created)
        (getSnapshotMetadata "o" sampleStore)
    ∧ ∀ m ∈ getSnapshotMetadata "o" sampleStore,
        ∃ r ∈ sampleStore, r.origin = "o" ∧ m = stripSnapshot r :=
  getSnapshotMetadata_spec "o" sampleStore
